import Mathlib

/-!
Verification of the Connections game engine (`connections.py`) and its
evaluation harness (`eval.py`).  Python classes are shallowly embedded as
Lean structures, Python sets as `Finset String`, Python `int` counters as
`Int`/`Nat`, and code that can raise an uncaught exception as
`Except PyErr`.  The external LLM collaborator is modelled as an arbitrary
stream of reply texts, and the process-global random number generator as an
abstract stream of draws together with a position.
-/

namespace Connections

/-! ## Constants (module-level constants of connections.py) -/

def FIRST_GAME_DATE : String := "2023-06-12"

def ALLOWED_MISTAKES : Int := 4

def CATEGORY_SIZE : Nat := 4

def NUM_CATEGORIES : Nat := 4

def MAX_CONSECUTIVE_INVALID_ATTEMPTS : Nat := 3

/-! ## Data model -/

/-- Embedding of the `Category` dataclass: a named group of words with a
difficulty level.  The Python `Set[str]` field `words` becomes a
`Finset String`. -/
structure Category where
  name : String
  words : Finset String
  level : Nat

deriving instance DecidableEq for Category

/-- Embedding of the `GuessResult` enum. -/
inductive GuessResult where
  | correct
  | incorrect
  | three_out_of_four
  | invalid

deriving instance DecidableEq for GuessResult

/-- Embedding of the `Guess` dataclass. -/
structure Guess where
  words : Finset String
  result : GuessResult

deriving instance DecidableEq for Guess

/-- Embedding of the `ParsedGuess` dataclass returned by
`GuessEvaluator.parse_guess`. -/
structure ParsedGuess where
  valid : Bool
  guess_set : Finset String
  reason : String

deriving instance DecidableEq for ParsedGuess

/-- Python exceptions that the embedded code can raise (uncaught in the
source). -/
inductive PyErr where
  | attributeError
  | typeError
  | indexError
  | valueError

deriving instance DecidableEq for PyErr

deriving instance DecidableEq for Except

/-! ## GameState -/

/-- Embedding of the mutable `GameState` class.  `remaining_mistakes` is an
`Int` because Python's decrement can in principle drive it below zero;
the other counters only grow and are `Nat`. -/
structure GameState where
  categories : List Category
  words : List String
  remaining_mistakes : Int
  num_correct_guesses : Nat
  guesses : List Guess
  is_over : Bool
  consecutive_invalid_attempts : Nat

deriving instance DecidableEq for GameState

/-- Embedding of `GameState.add_guess`: append the guess, then update the
counters according to its result. -/
def GameState.add_guess (s : GameState) (guess : Guess) : GameState :=
  let s := { s with guesses := s.guesses ++ [guess] }
  match guess.result with
  | .correct =>
      { s with num_correct_guesses := s.num_correct_guesses + 1
               consecutive_invalid_attempts := 0 }
  | .invalid =>
      { s with consecutive_invalid_attempts := s.consecutive_invalid_attempts + 1 }
  | _ =>
      { s with remaining_mistakes := s.remaining_mistakes - 1
               consecutive_invalid_attempts := 0 }

/-- Embedding of `GameState.guessed_sets`. -/
def GameState.guessed_sets (s : GameState) : List (Finset String) :=
  s.guesses.map (fun g => g.words)

/-- Embedding of `GameState.correct_guesses`. -/
def GameState.correct_guesses (s : GameState) : List Guess :=
  s.guesses.filter (fun g => decide (g.result = GuessResult.correct))

/-- Embedding of `GameState.any_word_already_in_correct_category`: Python's
`bool(words.intersection(guessed_words_set))` is nonemptiness of the
intersection with the union of all correctly guessed word sets. -/
def GameState.any_word_already_in_correct_category
    (s : GameState) (words : Finset String) : Bool :=
  let guessed_words_set :=
    (s.correct_guesses).foldl (fun acc g => acc ∪ g.words) ∅
  decide (words ∩ guessed_words_set).Nonempty

/-! ## GuessEvaluator.evaluate_guess -/

/-- The category scan inside `GuessEvaluator.evaluate_guess`: for each
category in order, first check set equality, then a 3-word intersection,
before moving to the next category. -/
def evaluateGuessGo (guess_set : Finset String) : List Category → Guess
  | [] => ⟨guess_set, .incorrect⟩
  | c :: rest =>
      if c.words = guess_set then ⟨guess_set, .correct⟩
      else if (c.words ∩ guess_set).card = 3 then ⟨guess_set, .three_out_of_four⟩
      else evaluateGuessGo guess_set rest

/-- Embedding of `GuessEvaluator.evaluate_guess`: duplicate check against the
whole history first, then the per-category scan. -/
def evaluate_guess (categories : List Category) (guess_set : Finset String)
    (guessed_sets : List (Finset String)) : Guess :=
  if guess_set ∈ guessed_sets then ⟨guess_set, .invalid⟩
  else evaluateGuessGo guess_set categories

/-- Modelled from the spec (section 4.2): the staged evaluation order the
specification describes — duplicate, then equality against all categories,
then a 3-word intersection against all categories, else incorrect.  Used
only to compare against `evaluate_guess` for claim C1. -/
def specEvaluateGuess (categories : List Category) (guess_set : Finset String)
    (guessed_sets : List (Finset String)) : Guess :=
  if guess_set ∈ guessed_sets then ⟨guess_set, .invalid⟩
  else if categories.any (fun c => decide (c.words = guess_set)) then
    ⟨guess_set, .correct⟩
  else if categories.any (fun c => decide ((c.words ∩ guess_set).card = 3)) then
    ⟨guess_set, .three_out_of_four⟩
  else ⟨guess_set, .incorrect⟩

/-! ## Text scanning helpers for `GuessEvaluator.parse_guess`

The Python code uses `re` with non-greedy patterns; over the fixed literal
delimiters involved, a non-greedy search is: find the first occurrence of
the opening delimiter, then the first occurrence of the closing delimiter
after it. -/

/-- Split a character list at the first occurrence of `pat`, returning the
text before the occurrence and the text after it.  `none` when `pat` does
not occur. -/
def splitOnList (pat : List Char) : List Char → Option (List Char × List Char)
  | [] => if pat.isPrefixOf ([] : List Char) then some ([], []) else none
  | c :: cs =>
      if pat.isPrefixOf (c :: cs) then some ([], (c :: cs).drop pat.length)
      else
        match splitOnList pat cs with
        | none => none
        | some (b, a) => some (c :: b, a)

def scratchpadOpenTag : List Char := "<scratchpad>".toList

def scratchpadCloseTag : List Char := "</scratchpad>".toList

/-- Worker for `removeScratchpads`, fueled to make the recursion structural;
the top-level wrapper supplies enough fuel for any input. -/
def removeScratchpadsGo : Nat → List Char → List Char
  | 0, cs => cs
  | fuel + 1, cs =>
      match splitOnList scratchpadOpenTag cs with
      | none => cs
      | some (before, afterOpen) =>
          match splitOnList scratchpadCloseTag afterOpen with
          | none => cs
          | some (_, afterClose) => before ++ removeScratchpadsGo fuel afterClose

/-- Embedding of `re.sub(r"<scratchpad>.*?</scratchpad>", "", guess,
flags=re.DOTALL)`: repeatedly delete the region from each `<scratchpad>` to
the earliest following `</scratchpad>`, continuing after the deleted
region. -/
def removeScratchpads (cs : List Char) : List Char :=
  removeScratchpadsGo cs.length cs

def fenceTok : List Char := "```".toList

/-- Embedding of `re.search(r"```(.*?)```", guess, re.DOTALL)`: the text
between the first fence and the earliest following fence, when both
exist. -/
def findFenced (cs : List Char) : Option (List Char) :=
  match splitOnList fenceTok cs with
  | none => none
  | some (_, afterOpen) =>
      match splitOnList fenceTok afterOpen with
      | none => none
      | some (content, _) => some content

/-- Whitespace stripped by Python's `str.strip()` (the ASCII cases). -/
def isPySpace (c : Char) : Bool :=
  c = ' ' || c = '\t' || c = '\n' || c = '\r' || c = '\x0b' || c = '\x0c'

/-- Embedding of `str.strip()`. -/
def pyStrip (cs : List Char) : List Char :=
  ((cs.dropWhile isPySpace).reverse.dropWhile isPySpace).reverse

/-! ## A model of `json.loads`

JSON values as parsed by Python's `json` module.  Numbers keep their
lexeme: the code never uses a number's value, only its (non-container)
type, so the numeric payload is irrelevant. -/

inductive JsonValue where
  | null
  | bool (b : Bool)
  | num (lexeme : String)
  | str (s : String)
  | arr (elems : List JsonValue)
  | obj (entries : List (String × JsonValue))

def isJsonWs (c : Char) : Bool :=
  c = ' ' || c = '\t' || c = '\n' || c = '\r'

def skipWs (cs : List Char) : List Char := cs.dropWhile isJsonWs

/-- Insertion with Python `dict` semantics: a repeated key keeps its first
position but takes the latest value. -/
def dictInsert (entries : List (String × JsonValue)) (k : String)
    (v : JsonValue) : List (String × JsonValue) :=
  match entries with
  | [] => [(k, v)]
  | (k', v') :: rest =>
      if k' = k then (k', v) :: rest else (k', v') :: dictInsert rest k v

def hexDigit (c : Char) : Option Nat :=
  if c.toNat ≥ 48 && c.toNat ≤ 57 then some (c.toNat - 48)
  else if c.toNat ≥ 97 && c.toNat ≤ 102 then some (c.toNat - 87)
  else if c.toNat ≥ 65 && c.toNat ≤ 70 then some (c.toNat - 55)
  else none

/-- Scanner for a JSON string literal (after the opening quote).  Strict
mode: raw control characters are rejected; `\uXXXX` maps to the scalar of
that code point (surrogate-pair recombination is not modelled — the code
under verification never relies on it). -/
def parseStringGo : Nat → List Char → List Char → Option (String × List Char)
  | 0, _, _ => none
  | fuel + 1, acc, cs =>
      match cs with
      | [] => none
      | c :: rest =>
          if c = '"' then some (String.mk acc.reverse, rest)
          else if c = '\\' then
            match rest with
            | [] => none
            | e :: rest' =>
                if e = '"' then parseStringGo fuel ('"' :: acc) rest'
                else if e = '\\' then parseStringGo fuel ('\\' :: acc) rest'
                else if e = '/' then parseStringGo fuel ('/' :: acc) rest'
                else if e = 'b' then parseStringGo fuel ('\x08' :: acc) rest'
                else if e = 'f' then parseStringGo fuel ('\x0c' :: acc) rest'
                else if e = 'n' then parseStringGo fuel ('\n' :: acc) rest'
                else if e = 'r' then parseStringGo fuel ('\r' :: acc) rest'
                else if e = 't' then parseStringGo fuel ('\t' :: acc) rest'
                else if e = 'u' then
                  match rest' with
                  | h1 :: h2 :: h3 :: h4 :: rest'' =>
                      match hexDigit h1, hexDigit h2, hexDigit h3, hexDigit h4 with
                      | some a, some b, some c', some d =>
                          parseStringGo fuel
                            (Char.ofNat (((a * 16 + b) * 16 + c') * 16 + d) :: acc) rest''
                      | _, _, _, _ => none
                  | _ => none
                else none
          else if c.toNat < 32 then none
          else parseStringGo fuel (c :: acc) rest

/-- Integer part of a JSON number: `0`, or a nonzero digit followed by
digits. -/
def parseIntPart : List Char → Option (List Char × List Char)
  | [] => none
  | c :: t =>
      if c = '0' then some (['0'], t)
      else if c.isDigit then
        some (c :: t.takeWhile Char.isDigit, t.dropWhile Char.isDigit)
      else none

/-- Optional fraction part of a JSON number. -/
def parseFracPart : List Char → Option (List Char × List Char)
  | '.' :: t =>
      let d := t.takeWhile Char.isDigit
      if d.isEmpty then none else some ('.' :: d, t.dropWhile Char.isDigit)
  | cs => some ([], cs)

/-- Optional exponent part of a JSON number. -/
def parseExpPart : List Char → Option (List Char × List Char)
  | [] => some ([], [])
  | c :: t =>
      if c = 'e' || c = 'E' then
        let p := match t with
          | s :: t' => if s = '+' || s = '-' then ([s], t') else (([] : List Char), t)
          | [] => ([], t)
        let d := p.2.takeWhile Char.isDigit
        if d.isEmpty then none
        else some (c :: p.1 ++ d, p.2.dropWhile Char.isDigit)
      else some ([], c :: t)

/-- A JSON number literal, returned as its lexeme. -/
def parseNumber (cs : List Char) : Option (String × List Char) :=
  let p := match cs with
    | c :: t => if c = '-' then (['-'], t) else (([] : List Char), cs)
    | [] => ([], cs)
  match parseIntPart p.2 with
  | none => none
  | some (ip, r1) =>
      match parseFracPart r1 with
      | none => none
      | some (fp, r2) =>
          match parseExpPart r2 with
          | none => none
          | some (ep, r3) => some (String.mk (p.1 ++ ip ++ fp ++ ep), r3)

def lbraceChar : Char := Char.ofNat 123

def rbraceChar : Char := Char.ofNat 125

mutual

/-- Recursive-descent JSON value parser, fueled to make the mutual
recursion structural. -/
def parseJsonValue : Nat → List Char → Option (JsonValue × List Char)
  | 0, _ => none
  | fuel + 1, cs =>
      match skipWs cs with
      | [] => none
      | c :: rest =>
          if c = '"' then
            match parseStringGo (rest.length + 1) [] rest with
            | some (s, r) => some (.str s, r)
            | none => none
          else if c = lbraceChar then parseObjStart fuel rest
          else if c = '[' then parseArrStart fuel rest
          else if "true".toList.isPrefixOf (c :: rest) then
            some (.bool true, (c :: rest).drop 4)
          else if "false".toList.isPrefixOf (c :: rest) then
            some (.bool false, (c :: rest).drop 5)
          else if "null".toList.isPrefixOf (c :: rest) then
            some (.null, (c :: rest).drop 4)
          else
            match parseNumber (c :: rest) with
            | some (lex, r) => some (.num lex, r)
            | none => none

/-- Array body parser, entered just after `[`. -/
def parseArrStart : Nat → List Char → Option (JsonValue × List Char)
  | 0, _ => none
  | fuel + 1, cs =>
      match skipWs cs with
      | [] => none
      | c :: rest =>
          if c = ']' then some (.arr [], rest) else parseArrItems fuel [] cs

/-- Comma-separated array items, accumulated in reverse. -/
def parseArrItems : Nat → List JsonValue → List Char →
    Option (JsonValue × List Char)
  | 0, _, _ => none
  | fuel + 1, acc, cs =>
      match parseJsonValue fuel cs with
      | none => none
      | some (v, r) =>
          match skipWs r with
          | [] => none
          | c :: rest =>
              if c = ',' then parseArrItems fuel (v :: acc) rest
              else if c = ']' then some (.arr (v :: acc).reverse, rest)
              else none

/-- Object body parser, entered just after the opening brace. -/
def parseObjStart : Nat → List Char → Option (JsonValue × List Char)
  | 0, _ => none
  | fuel + 1, cs =>
      match skipWs cs with
      | [] => none
      | c :: _ =>
          if c = rbraceChar then some (.obj [], (skipWs cs).drop 1)
          else parseObjItems fuel [] cs

/-- Comma-separated `"key": value` object entries, accumulated with Python
dict insertion semantics. -/
def parseObjItems : Nat → List (String × JsonValue) → List Char →
    Option (JsonValue × List Char)
  | 0, _, _ => none
  | fuel + 1, acc, cs =>
      match skipWs cs with
      | [] => none
      | c :: rest =>
          if c = '"' then
            match parseStringGo (rest.length + 1) [] rest with
            | none => none
            | some (k, r1) =>
                match skipWs r1 with
                | [] => none
                | c2 :: r2 =>
                    if c2 = ':' then
                      match parseJsonValue fuel r2 with
                      | none => none
                      | some (v, r3) =>
                          match skipWs r3 with
                          | [] => none
                          | c3 :: r4 =>
                              if c3 = ',' then
                                parseObjItems fuel (dictInsert acc k v) r4
                              else if c3 = rbraceChar then
                                some (.obj (dictInsert acc k v), r4)
                              else none
                    else none
          else none

end

/-- Embedding of `json.loads`: parse one JSON document and require that
only whitespace follows it. -/
def json_loads (cs : List Char) : Option JsonValue :=
  match parseJsonValue (2 * cs.length + 4) cs with
  | some (v, r) => if skipWs r = [] then some v else none
  | none => none

/-! ## GuessEvaluator.parse_guess -/

def msgNoFence : String := "Your guess was not between code fences"

def msgBadJson : String := "Your guess JSON was incorrectly formatted"

def msgNeed4 : String := "Your guess must contain 4 words"

/-- Substring test, the semantics of Python's `in` on strings. -/
def isSubstr (pat : List Char) : List Char → Bool
  | [] => pat.isEmpty
  | c :: t => pat.isPrefixOf (c :: t) || isSubstr pat t

/-- Semantics of Python's `word in guess_tokens` for each possible JSON
type of `guess_tokens`: membership for lists (string equality against
elements, false against non-strings), substring for strings, key
membership for dicts, and a `TypeError` for the non-container types. -/
def pyIn (word : String) (tokens : JsonValue) : Except PyErr Bool :=
  match tokens with
  | .arr elems =>
      .ok (elems.any (fun e =>
        match e with
        | .str s => decide (s = word)
        | _ => false))
  | .str s => .ok (isSubstr word.toList s.toList)
  | .obj entries => .ok (entries.any (fun kv => decide (kv.1 = word)))
  | .null => .error .typeError
  | .bool _ => .error .typeError
  | .num _ => .error .typeError

/-- The vocabulary-filter loop of `parse_guess`: for each canonical word,
test membership in the guess tokens and collect the hits into a set. -/
def collectGuessSet (words : List String) (tokens : JsonValue) :
    Except PyErr (Finset String) :=
  match words with
  | [] => .ok ∅
  | w :: rest =>
      match pyIn w tokens with
      | .error e => .error e
      | .ok b =>
          match collectGuessSet rest tokens with
          | .error e => .error e
          | .ok s => .ok (if b then insert w s else s)

/-- Embedding of `GuessEvaluator.parse_guess`.  The stages mirror the
source: delete scratchpad regions, extract the first fenced block, strip
it, `json.loads` it, take `list(guess_dict.values())[0]` (an
`AttributeError` on a non-dict, an `IndexError` on an empty dict), filter
the canonical vocabulary through Python's `in` (a possible `TypeError`),
and finally check the recovered set size. -/
def parse_guess (words : List String) (guess : String) :
    Except PyErr ParsedGuess :=
  match findFenced (removeScratchpads guess.toList) with
  | none => .ok ⟨false, ∅, msgNoFence⟩
  | some content =>
      match json_loads (pyStrip content) with
      | none => .ok ⟨false, ∅, msgBadJson⟩
      | some (.obj []) => .error .indexError
      | some (.obj ((_, v) :: _)) =>
          match collectGuessSet words v with
          | .error e => .error e
          | .ok s =>
              if s.card ≠ CATEGORY_SIZE then .ok ⟨false, s, msgNeed4⟩
              else .ok ⟨true, s, ""⟩
      | some _ => .error .attributeError

/-! ## The process-global random source and `random.shuffle`

`connections.py` calls `random.seed(42)` once at import time and
`random.shuffle` inside `GameState.__init__`: every shuffle draws from the
single module-global Mersenne Twister.  The generator is modelled
abstractly as a stream of draws together with a position; `_randbelow(n)`
reads the draw at the current position reduced mod `n` and advances the
position. -/

structure GlobalRng where
  stream : Nat → Nat
  pos : Nat

def randbelow (g : GlobalRng) (n : Nat) : Nat × GlobalRng :=
  (g.stream g.pos % n, { g with pos := g.pos + 1 })

/-- Python's `x[i], x[j] = x[j], x[i]` on a list (identity when an index is
out of range, which the shuffle never produces). -/
def swapL {α : Type} (xs : List α) (i j : Nat) : List α :=
  match xs[i]?, xs[j]? with
  | some a, some b => (xs.set i b).set j a
  | _, _ => xs

/-- The Fisher–Yates loop of `random.shuffle`:
`for i in reversed(range(1, len(x))): j = _randbelow(i + 1); swap i j`.
The argument counts down through the index `i`. -/
def pyShuffleGo : GlobalRng → List String → Nat → List String × GlobalRng
  | g, xs, 0 => (xs, g)
  | g, xs, i + 1 =>
      let r := randbelow g (i + 2)
      pyShuffleGo r.2 (swapL xs (i + 1) r.1) i

/-- Embedding of `random.shuffle` (returning the permuted list instead of
mutating in place). -/
def pyShuffle (g : GlobalRng) (xs : List String) : List String × GlobalRng :=
  pyShuffleGo g xs (xs.length - 1)

/-- Lexicographic comparison of character lists by code point — the order
Python's `sorted` uses on strings.  Structural, so it evaluates by kernel
reduction (the library's `String` order goes through byte iterators and
does not). -/
def charListLe : List Char → List Char → Bool
  | [], _ => true
  | _ :: _, [] => false
  | a :: as, b :: bs =>
      if a.toNat < b.toNat then true
      else if b.toNat < a.toNat then false
      else charListLe as bs

/-- Code-point lexicographic order on strings, the semantics of Python's
`<=` on `str`. -/
def pyStrLe (a b : String) : Bool := charListLe a.toList b.toList

def charListLe_total_pf : ∀ xs ys : List Char,
    charListLe xs ys = true ∨ charListLe ys xs = true := by
  intro xs
  induction xs with
  | nil => intro ys; left; rfl
  | cons x xt ih =>
    intro ys
    cases ys with
    | nil => right; rfl
    | cons y yt =>
      by_cases h1 : x.toNat < y.toNat
      · left; simp [charListLe, h1]
      · by_cases h2 : y.toNat < x.toNat
        · right; simp [charListLe, h2]
        · rcases ih yt with h | h
          · left; simp [charListLe, h1, h2, h]
          · right; simp [charListLe, h1, h2, h]

def charListLe_trans_pf : ∀ xs ys zs : List Char,
    charListLe xs ys = true → charListLe ys zs = true →
    charListLe xs zs = true := by
  intro xs
  induction xs with
  | nil => intro ys zs _ _; rfl
  | cons x xt ih =>
    intro ys zs hxy hyz
    cases ys with
    | nil => simp [charListLe] at hxy
    | cons y yt =>
      cases zs with
      | nil => simp [charListLe] at hyz
      | cons z zt =>
        simp only [charListLe] at hxy hyz ⊢
        by_cases hxz : x.toNat < z.toNat
        · simp [hxz]
        · by_cases hzx : z.toNat < x.toNat
          · exfalso
            by_cases h1 : x.toNat < y.toNat
            · by_cases h2 : y.toNat < z.toNat
              · omega
              · by_cases h4 : z.toNat < y.toNat
                · simp [h2, h4] at hyz
                · omega
            · by_cases h3 : y.toNat < x.toNat
              · simp [h1, h3] at hxy
              · by_cases h2 : y.toNat < z.toNat
                · omega
                · by_cases h4 : z.toNat < y.toNat
                  · simp [h2, h4] at hyz
                  · omega
          · simp only [if_neg hxz, if_neg hzx]
            by_cases h1 : x.toNat < y.toNat
            · by_cases h2 : y.toNat < z.toNat
              · omega
              · by_cases h4 : z.toNat < y.toNat
                · simp [h2, h4] at hyz
                · omega
            · by_cases h3 : y.toNat < x.toNat
              · simp [h1, h3] at hxy
              · have h2 : ¬ y.toNat < z.toNat := by omega
                have h4 : ¬ z.toNat < y.toNat := by omega
                simp only [if_neg h1, if_neg h3] at hxy
                simp only [if_neg h2, if_neg h4] at hyz
                exact ih yt zt hxy hyz

def charListLe_antisymm_pf : ∀ xs ys : List Char,
    charListLe xs ys = true → charListLe ys xs = true → xs = ys := by
  intro xs
  induction xs with
  | nil =>
    intro ys _ hyx
    cases ys with
    | nil => rfl
    | cons y yt => simp [charListLe] at hyx
  | cons x xt ih =>
    intro ys hxy hyx
    cases ys with
    | nil => simp [charListLe] at hxy
    | cons y yt =>
      simp only [charListLe] at hxy hyx
      by_cases h1 : x.toNat < y.toNat
      · simp [h1, show ¬ y.toNat < x.toNat by omega] at hyx
      · by_cases h2 : y.toNat < x.toNat
        · simp [h1, h2] at hxy
        · simp only [if_neg h1, if_neg h2] at hxy
          simp only [if_neg h2, if_neg h1] at hyx
          have hch : x = y := by
            have h3 : x.toNat = y.toNat := by omega
            rw [← Char.ofNat_toNat x, ← Char.ofNat_toNat y, h3]
          rw [hch, ih yt hxy hyx]

instance : IsTotal String (fun a b => pyStrLe a b = true) :=
  ⟨fun a b => charListLe_total_pf a.toList b.toList⟩

instance : IsTrans String (fun a b => pyStrLe a b = true) :=
  ⟨fun a b c => charListLe_trans_pf a.toList b.toList c.toList⟩

instance : IsAntisymm String (fun a b => pyStrLe a b = true) :=
  ⟨fun a b h1 h2 => by
    have h := charListLe_antisymm_pf a.toList b.toList h1 h2
    cases a; cases b
    exact congrArg String.mk h⟩

/-- A deterministic, kernel-computable enumeration of a finite set of
words, sorted by code point. -/
def finsetToSortedList (s : Finset String) : List String :=
  Quotient.lift (List.insertionSort (fun a b => pyStrLe a b = true))
    (fun l₁ l₂ h =>
      List.eq_of_perm_of_sorted
        (((List.perm_insertionSort _ l₁).trans h).trans
          (List.perm_insertionSort _ l₂).symm)
        (List.sorted_insertionSort _ l₁) (List.sorted_insertionSort _ l₂))
    s.val

/-- The words of one category as a list.  Python iterates the `set` in hash
order; the embedding fixes the canonical sorted enumeration — every claim
depends only on which words appear, never on the pre-shuffle order. -/
def categoryWordList (c : Category) : List String :=
  finsetToSortedList c.words

/-- The list comprehension
`[word for category in categories for word in category.words]`. -/
def flattenWords (categories : List Category) : List String :=
  (categories.map categoryWordList).flatten

/-- Embedding of `GameState.__init__`: flatten the categories' words,
shuffle them through the global generator, and start the counters at
`ALLOWED_MISTAKES` mistakes, no correct guesses, an empty log, and zero
consecutive invalid attempts. -/
def mkGameState (rng : GlobalRng) (categories : List Category) :
    GameState × GlobalRng :=
  let p := pyShuffle rng (flattenWords categories)
  (⟨categories, p.1, ALLOWED_MISTAKES, 0, [], false, 0⟩, p.2)

/-! ## The Game engine -/

/-- The information content of `Game.prompt` after each turn.  The literal
prompt wording is out of scope (spec section 1); each constructor carries
the data interpolated into the corresponding f-string of `do_turn`, and
`feedback` additionally records the remaining-guess count and solved sets
appended to every evaluator outcome. -/
inductive PromptState where
  | initial (words : List String)
  | parseInvalid (reason : String)
  | reusedWord
  | feedback (result : GuessResult) (num_correct : Nat) (remaining : Int)
      (correct_sets : List (Finset String))

deriving instance DecidableEq for PromptState

/-- Embedding of the `Game` class.  The `GuessEvaluator` constructed in
`Game.__init__` holds the same `categories` list and the same `words` list
as the state, so the evaluator's fields are read through `state`. -/
structure Game where
  state : GameState
  prompt : PromptState

deriving instance DecidableEq for Game

/-- Embedding of `Game.__init__`, threading the global generator. -/
def mkGame (rng : GlobalRng) (categories : List Category) :
    Game × GlobalRng :=
  let p := mkGameState rng categories
  (⟨p.1, .initial p.1.words⟩, p.2)

/-- Embedding of `Game.do_turn`, with the agent's reply for this turn as a
parameter (the `LLMGuesser` is an external collaborator).  A `PyErr`
models the uncaught exception that `parse_guess` can raise, which aborts
the turn before any state change. -/
def do_turn (game : Game) (reply : String) : Except PyErr Game :=
  match parse_guess game.state.words reply with
  | .error e => .error e
  | .ok parsed =>
      if parsed.valid = false then
        .ok ⟨game.state.add_guess ⟨∅, .invalid⟩, .parseInvalid parsed.reason⟩
      else if game.state.any_word_already_in_correct_category parsed.guess_set then
        .ok ⟨game.state.add_guess ⟨parsed.guess_set, .invalid⟩, .reusedWord⟩
      else
        let guess_result :=
          evaluate_guess game.state.categories parsed.guess_set
            game.state.guessed_sets
        let st := game.state.add_guess guess_result
        .ok ⟨st, .feedback guess_result.result st.num_correct_guesses
                st.remaining_mistakes
                (st.correct_guesses.map (fun g => g.words))⟩

/-- The `while` condition of `Game.play`. -/
def loopGuard (s : GameState) : Bool :=
  decide (s.remaining_mistakes > 0) &&
  decide (s.num_correct_guesses ≠ NUM_CATEGORIES) &&
  decide (s.consecutive_invalid_attempts < MAX_CONSECUTIVE_INVALID_ATTEMPTS)

/-- How a run of the turn loop ended: the guard became false, an uncaught
exception escaped a turn, or the observation fuel ran out. -/
inductive RunResult where
  | finished (g : Game)
  | crashed (e : PyErr) (g : Game)
  | outOfFuel (g : Game)

deriving instance DecidableEq for RunResult

def RunResult.game : RunResult → Game
  | .finished g => g
  | .crashed _ g => g
  | .outOfFuel g => g

/-- Embedding of the `while` loop of `Game.play`.  The external
collaborator is an arbitrary stream of replies indexed by turn number;
`fuel` bounds how many iterations are observed (the termination theorem
shows a fixed fuel is always enough). -/
def playFuel (stream : Nat → String) : Nat → Nat → Game → RunResult
  | _, 0, g => if loopGuard g.state then .outOfFuel g else .finished g
  | turn, fuel + 1, g =>
      if loopGuard g.state then
        match do_turn g (stream turn) with
        | .ok g' => playFuel stream (turn + 1) fuel g'
        | .error e => .crashed e g
      else .finished g

/-! ## Result formatter and puzzle numbering -/

/-- Insertion with Python `dict` semantics for arbitrary key and value
types (a repeated key keeps its first position but takes the latest
value). -/
def pyDictInsert {κ ν : Type} [DecidableEq κ] (entries : List (κ × ν))
    (k : κ) (v : ν) : List (κ × ν) :=
  match entries with
  | [] => [(k, v)]
  | (k', v') :: rest =>
      if k' = k then (k', v) :: rest else (k', v') :: pyDictInsert rest k v

def isDigitList (cs : List Char) : Bool :=
  !cs.isEmpty && cs.all Char.isDigit

def digitsToNat (cs : List Char) : Nat :=
  cs.foldl (fun a c => a * 10 + (c.toNat - 48)) 0

def daysInMonth (y m : Nat) : Nat :=
  if m = 2 then
    (if (y % 4 = 0 && y % 100 ≠ 0) || y % 400 = 0 then 29 else 28)
  else if m = 4 || m = 6 || m = 9 || m = 11 then 30
  else 31

/-- Embedding of `datetime.strptime(s, "%Y-%m-%d")`: four year digits, one
or two month and day digits, with calendar validation. -/
def strptimeYmd (s : String) : Option (Nat × Nat × Nat) :=
  match s.toList.splitOn '-' with
  | [ys, ms, ds] =>
      if isDigitList ys && isDigitList ms && isDigitList ds &&
          ys.length = 4 && ms.length ≤ 2 && ds.length ≤ 2 then
        let y := digitsToNat ys
        let m := digitsToNat ms
        let d := digitsToNat ds
        if 1 ≤ m && m ≤ 12 && 1 ≤ d && d ≤ daysInMonth y m then
          some (y, m, d)
        else none
      else none
  | _ => none

/-- Day number of a proleptic Gregorian date (days since the Unix epoch),
so that subtracting two day numbers is `(d2 - d1).days` for midnight
datetimes. -/
def daysFromCivil (y m d : Nat) : Int :=
  let y' : Int := (y : Int) - (if m ≤ 2 then 1 else 0)
  let era : Int := (if y' ≥ 0 then y' else y' - 399) / 400
  let yoe : Int := y' - era * 400
  let mp : Int := ((m : Int) + 9) % 12
  let doy : Int := (153 * mp + 2) / 5 + (d : Int) - 1
  let doe : Int := yoe * 365 + yoe / 4 - yoe / 100 + doy
  era * 146097 + doe - 719468

/-- Embedding of `puzzle_number`: days between `FIRST_GAME_DATE` and the
given date, plus one.  A malformed date raises `ValueError` in Python. -/
def puzzle_number (endDate : String) : Except PyErr Int :=
  match strptimeYmd FIRST_GAME_DATE, strptimeYmd endDate with
  | some (y1, m1, d1), some (y2, m2, d2) =>
      .ok (daysFromCivil y2 m2 d2 - daysFromCivil y1 m1 d1 + 1)
  | _, _ => .error .valueError

/-- The `emoji_to_category_dict` literal of `format_game_result`: four
insertions keyed by the first four categories' word sets (an `IndexError`
when fewer than four categories exist). -/
def emojiDict (categories : List Category) :
    Except PyErr (List (Finset String × String)) :=
  match categories with
  | c0 :: c1 :: c2 :: c3 :: _ =>
      .ok (pyDictInsert (pyDictInsert (pyDictInsert
        (pyDictInsert [] c0.words "🟩") c1.words "🟨") c2.words "🟦")
        c3.words "🟪")
  | _ => .error .indexError

/-- The inner lookup of `format_game_result`: the emoji of the first dict
entry whose word set contains the word, if any. -/
def lookupEmoji (dict : List (Finset String × String)) (w : String) :
    Option String :=
  (dict.find? (fun kv => decide (w ∈ kv.1))).map (fun kv => kv.2)

/-- One guess's glyph line content: the emojis of the guessed words in
sorted order, skipping words found in no category (the source's inner
`for`/`break`). -/
def guessEmojis (dict : List (Finset String × String)) (g : Guess) :
    List String :=
  (finsetToSortedList g.words).filterMap (lookupEmoji dict)

/-- Embedding of `format_game_result`: header, then one emoji line per
non-Invalid guess, with the final `.strip()`. -/
def format_game_result (model : String) (game_date : String)
    (categories : List Category) (guesses : List Guess) :
    Except PyErr String :=
  match emojiDict categories with
  | .error e => .error e
  | .ok dict =>
      match puzzle_number game_date with
      | .error e => .error e
      | .ok n =>
          let header :=
            "🤖 Connections (" ++ model ++ ") \nPuzzle #" ++ toString n ++ "\n"
          let body :=
            (guesses.filter (fun g => decide (g.result ≠ GuessResult.invalid))).map
              (fun g => String.join (guessEmojis dict g) ++ "\n")
          .ok (String.mk (pyStrip (header ++ String.join body).toList))

/-! ## Evaluation harness (`eval.py`) -/

/-- Embedding of one ledger line (an evaluation record).  `levels` is the
Python dict `{0: bool, 1: bool, 2: bool, 3: bool}` as an insertion-ordered
association list. -/
structure EvalRecord where
  model : String
  prompt_hash : String
  game_date : String
  levels : List (Nat × Bool)

deriving instance DecidableEq for EvalRecord

/-- Embedding of `write_stats`, with `hashlib.sha256(...).hexdigest()`
abstracted as a hash-function parameter. -/
def write_stats (sha256 : String → String) (prompt model game_date : String)
    (game_state : GameState) : EvalRecord :=
  let start : List (Nat × Bool) := [(0, false), (1, false), (2, false), (3, false)]
  let levels := game_state.correct_guesses.foldl
    (fun lv g =>
      match game_state.categories.find? (fun c => decide (g.words = c.words)) with
      | some c => pyDictInsert lv c.level true
      | none => lv)
    start
  ⟨model, sha256 prompt, game_date, levels⟩

/-- The ledger-lookup loop of `process_date`: the first stored record whose
`model` and `game_date` equal the requested ones. -/
def findExisting (ledger : List EvalRecord) (model date_str : String) :
    Option EvalRecord :=
  ledger.find? (fun r => decide (r.model = model) && decide (r.game_date = date_str))

/-- Embedding of `process_date`.  The ledger file is modelled as its list
of parsed records; the session that `asyncio.to_thread(run_eval, ...)`
would run is abstracted as the record `runEval` it would produce.  The
result pairs the returned record with the ledger contents afterwards. -/
def process_date (model date_str : String) (ledger : List EvalRecord)
    (runEval : EvalRecord) : EvalRecord × List EvalRecord :=
  match findExisting ledger model date_str with
  | some existing => (existing, ledger)
  | none => (runEval, ledger ++ [runEval])

/-! ## Terminal conditions, measure and invariants of the turn loop -/

/-- Terminal condition of a Won session: all categories solved. -/
def terminalWon (s : GameState) : Prop :=
  s.num_correct_guesses = NUM_CATEGORIES

/-- Terminal condition of a session lost on mistakes. -/
def terminalMistakes (s : GameState) : Prop :=
  s.remaining_mistakes = 0

/-- Terminal condition of a session lost on consecutive invalid attempts. -/
def terminalInvalid (s : GameState) : Prop :=
  MAX_CONSECUTIVE_INVALID_ATTEMPTS ≤ s.consecutive_invalid_attempts

/-- Exactly one of the three terminal conditions holds. -/
def exactlyOneTerminal (s : GameState) : Prop :=
  (terminalWon s ∧ ¬terminalMistakes s ∧ ¬terminalInvalid s) ∨
  (¬terminalWon s ∧ terminalMistakes s ∧ ¬terminalInvalid s) ∨
  (¬terminalWon s ∧ ¬terminalMistakes s ∧ terminalInvalid s)

instance (s : GameState) : Decidable (terminalWon s) :=
  inferInstanceAs (Decidable (s.num_correct_guesses = NUM_CATEGORIES))

instance (s : GameState) : Decidable (terminalMistakes s) :=
  inferInstanceAs (Decidable (s.remaining_mistakes = 0))

instance (s : GameState) : Decidable (terminalInvalid s) :=
  inferInstanceAs
    (Decidable (MAX_CONSECUTIVE_INVALID_ATTEMPTS ≤ s.consecutive_invalid_attempts))

instance (s : GameState) : Decidable (exactlyOneTerminal s) :=
  inferInstanceAs (Decidable (_ ∨ _ ∨ _))

/-- Ranges the counters stay in throughout a session. -/
def rangeInv (s : GameState) : Prop :=
  0 ≤ s.remaining_mistakes ∧
  s.num_correct_guesses ≤ NUM_CATEGORIES ∧
  s.consecutive_invalid_attempts ≤ MAX_CONSECUTIVE_INVALID_ATTEMPTS

/-- Termination measure of the turn loop: strictly decreases on every
recorded guess while the loop guard holds. -/
def gameMeasure (s : GameState) : Nat :=
  4 * s.remaining_mistakes.toNat +
  16 * (NUM_CATEGORIES - s.num_correct_guesses) +
  (MAX_CONSECUTIVE_INVALID_ATTEMPTS - s.consecutive_invalid_attempts)

/-- The set of canonical words that Python's `in` recovers from a JSON
array of guess tokens: those vocabulary words equal to some string element
of the array. -/
def arrVocabFilter (words : List String) (toks : List JsonValue) : Finset String :=
  (words.filter (fun w =>
    toks.any (fun e =>
      match e with
      | .str s => decide (s = w)
      | _ => false))).toFinset

/-! ## Concrete sample data (for witnesses and counterexamples)

The four categories are the example groups quoted in the game's own
START_MESSAGE prompt. -/

def catPlanets : Category := ⟨"Starts of planet names", {"EAR", "MAR", "MER", "SAT"}, 0⟩

def catSecond : Category := ⟨"Second ___", {"FIDDLE", "GUESS", "NATURE", "WIND"}, 1⟩

def catStub : Category := ⟨"Associated with stub", {"CIGARETTE", "PENCIL", "TICKET", "TOE"}, 2⟩

def catDream : Category := ⟨"___ Dream", {"AMERICAN", "FEVER", "LUCID", "PIPE"}, 3⟩

def sampleCats : List Category := [catPlanets, catSecond, catStub, catDream]

def sampleVocab : List String :=
  ["EAR", "MAR", "MER", "SAT", "FIDDLE", "GUESS", "NATURE", "WIND",
   "CIGARETTE", "PENCIL", "TICKET", "TOE", "AMERICAN", "FEVER", "LUCID", "PIPE"]

def sampleRng : GlobalRng := ⟨fun n => n, 0⟩

/-- A reply stream whose replies never contain a fenced block. -/
def unparsableStream : Nat → String := fun _ => "x"

/-- A reply stream whose fenced content is the valid JSON document `[]`,
on which `parse_guess` raises an uncaught `AttributeError`. -/
def crashingStream : Nat → String := fun _ => "```[]```"

/-- The final game of a session fed only unparsable replies. -/
def sampleFinalGame : Game :=
  (playFuel unparsableStream 0 83 (mkGame sampleRng sampleCats).1).game

/-- A fresh game state over the sample puzzle (word list unshuffled). -/
def sampleState : GameState :=
  ⟨sampleCats, sampleVocab, ALLOWED_MISTAKES, 0, [], false, 0⟩

/-- A mid-session state: one category solved, then two consecutive invalid
attempts. -/
def cexStateCia2 : GameState :=
  ⟨sampleCats, sampleVocab, 4, 1,
   [⟨{"EAR", "MAR", "MER", "SAT"}, .correct⟩, ⟨∅, .invalid⟩, ⟨∅, .invalid⟩],
   false, 2⟩

def cexGameCia2 : Game := ⟨cexStateCia2, .reusedWord⟩

/-- A mid-session state with one category solved and no pending invalid
streak. -/
def witGameReuse : Game :=
  ⟨⟨sampleCats, sampleVocab, 4, 1,
    [⟨{"EAR", "MAR", "MER", "SAT"}, .correct⟩], false, 0⟩, .reusedWord⟩

/-- A well-formed guess reply that reuses the word EAR of the already
solved planets category. -/
def reusedReply : String :=
  "```\x7b\"a\": [\"EAR\", \"FIDDLE\", \"GUESS\", \"NATURE\"]\x7d```"

/-- The sample game after the reused-word turn. -/
def cexGameAfterReuse : Game :=
  ⟨cexStateCia2.add_guess ⟨{"EAR", "FIDDLE", "GUESS", "NATURE"}, .invalid⟩, .reusedWord⟩

/-- A well-formed guess reply listing the planets category in lower case. -/
def lowercaseReply : String :=
  "```\x7b\"a\": [\"ear\", \"mar\", \"mer\", \"sat\"]\x7d```"

/-- A well-formed guess reply listing the planets category exactly as in
the canonical vocabulary. -/
def exactReply : String :=
  "```\x7b\"a\": [\"EAR\", \"MAR\", \"MER\", \"SAT\"]\x7d```"

/-- The fenced content of `exactReply`. -/
def exactReplyContent : List Char :=
  "\x7b\"a\": [\"EAR\", \"MAR\", \"MER\", \"SAT\"]\x7d".toList

/-- The parsed token array of `exactReply`. -/
def exactToks : List JsonValue :=
  [.str "EAR", .str "MAR", .str "MER", .str "SAT"]

def sampleLedgerRecord : EvalRecord :=
  ⟨"gpt-4", "hash1", "2023-06-12", [(0, true), (1, false), (2, false), (3, true)]⟩

def otherRecord : EvalRecord :=
  ⟨"gpt-4", "hash1", "2023-06-13", [(0, false), (1, false), (2, false), (3, false)]⟩

/-- A guess history containing an empty set recorded for a parse failure. -/
def sampleHist : List (Finset String) := [∅, {"FIDDLE", "GUESS", "NATURE", "WIND"}]

/-! ## Theorems -/

/-- C2: for every `GameState` and guess recorded via `add_guess`, an
Incorrect or ThreeOfFour result decreases `remaining_mistakes` by exactly
one and leaves `num_correct_guesses` unchanged; a Correct result leaves
`remaining_mistakes` unchanged and increases `num_correct_guesses` by one;
an Invalid result changes neither. -/
theorem add_guess_budget_update (s : GameState) (g : Guess) :
    ((g.result = GuessResult.incorrect ∨ g.result = GuessResult.three_out_of_four) →
      (s.add_guess g).remaining_mistakes = s.remaining_mistakes - 1 ∧
      (s.add_guess g).num_correct_guesses = s.num_correct_guesses) ∧
    (g.result = GuessResult.correct →
      (s.add_guess g).remaining_mistakes = s.remaining_mistakes ∧
      (s.add_guess g).num_correct_guesses = s.num_correct_guesses + 1) ∧
    (g.result = GuessResult.invalid →
      (s.add_guess g).remaining_mistakes = s.remaining_mistakes ∧
      (s.add_guess g).num_correct_guesses = s.num_correct_guesses) := by
  obtain ⟨w, r⟩ := g
  cases r <;> simp [GameState.add_guess]

/-- Witness for C2 at a concrete state and an Incorrect guess. -/
theorem add_guess_budget_update_witness :
    (sampleState.add_guess ⟨∅, GuessResult.incorrect⟩).remaining_mistakes =
      sampleState.remaining_mistakes - 1 ∧
    (sampleState.add_guess ⟨∅, GuessResult.incorrect⟩).num_correct_guesses =
      sampleState.num_correct_guesses :=
  (add_guess_budget_update sampleState ⟨∅, GuessResult.incorrect⟩).1 (Or.inl rfl)

/-- C3 (amended): `add_guess` increments the consecutive-invalid counter on
an Invalid result, and resets it to 0 on every non-Invalid result —
Correct, Incorrect and ThreeOfFour alike.  (The claim's assertion that
Incorrect/ThreeOfFour do not reset the counter is refuted by
`add_guess_incorrect_resets_counter`.) -/
theorem add_guess_consecutive_invalid_update (s : GameState) (g : Guess) :
    (g.result = GuessResult.invalid →
      (s.add_guess g).consecutive_invalid_attempts =
        s.consecutive_invalid_attempts + 1) ∧
    (g.result ≠ GuessResult.invalid →
      (s.add_guess g).consecutive_invalid_attempts = 0) := by
  obtain ⟨w, r⟩ := g
  cases r <;> simp [GameState.add_guess]

/-- Witness for C3 (amended) at a concrete state and an Invalid guess. -/
theorem add_guess_consecutive_invalid_update_witness :
    (cexStateCia2.add_guess ⟨∅, GuessResult.invalid⟩).consecutive_invalid_attempts =
      cexStateCia2.consecutive_invalid_attempts + 1 :=
  (add_guess_consecutive_invalid_update cexStateCia2 ⟨∅, GuessResult.invalid⟩).1 rfl

/-- Counterexample to C3 as stated: at a state whose consecutive-invalid
counter is 2, recording an Incorrect guess resets the counter to 0 — the
code does not preserve it as the claim asserts. -/
theorem add_guess_incorrect_resets_counter :
    cexStateCia2.consecutive_invalid_attempts = 2 ∧
    (cexStateCia2.add_guess ⟨∅, GuessResult.incorrect⟩).consecutive_invalid_attempts = 0 ∧
    (cexStateCia2.add_guess ⟨∅, GuessResult.incorrect⟩).consecutive_invalid_attempts ≠
      cexStateCia2.consecutive_invalid_attempts :=
  ⟨rfl, rfl, by decide⟩

/-- C8: when the ledger already contains a record whose `model` and
`game_date` match the request, `process_date` returns that record
unchanged, appends nothing to the ledger, and its result does not depend
on what a fresh session would have produced (no session is run). -/
theorem process_date_skips_existing (model date_str : String)
    (ledger : List EvalRecord) (r : EvalRecord)
    (h : findExisting ledger model date_str = some r)
    (runEval₁ runEval₂ : EvalRecord) :
    process_date model date_str ledger runEval₁ = (r, ledger) ∧
    process_date model date_str ledger runEval₁ =
      process_date model date_str ledger runEval₂ := by
  simp [process_date, h]

/-- Witness for C8 at a concrete one-record ledger. -/
theorem process_date_skips_existing_witness :
    process_date "gpt-4" "2023-06-12" [sampleLedgerRecord] otherRecord =
      (sampleLedgerRecord, [sampleLedgerRecord]) ∧
    process_date "gpt-4" "2023-06-12" [sampleLedgerRecord] otherRecord =
      process_date "gpt-4" "2023-06-12" [sampleLedgerRecord] sampleLedgerRecord :=
  process_date_skips_existing "gpt-4" "2023-06-12" [sampleLedgerRecord]
    sampleLedgerRecord rfl otherRecord sampleLedgerRecord

/-- The interleaved per-category scan of `evaluate_guess` agrees with the
staged order described by the spec whenever the categories are pairwise
disjoint: an exact match found later can never be preempted by a 3-word
intersection found earlier. -/
theorem evaluateGuessGo_eq_staged (g : Finset String) :
    ∀ cats : List Category,
      cats.Pairwise (fun a b => Disjoint a.words b.words) →
      evaluateGuessGo g cats =
        (if cats.any (fun c => decide (c.words = g)) then
          (⟨g, GuessResult.correct⟩ : Guess)
         else if cats.any (fun c => decide ((c.words ∩ g).card = 3)) then
          ⟨g, GuessResult.three_out_of_four⟩
         else ⟨g, GuessResult.incorrect⟩) := by
  intro cats
  induction cats with
  | nil => intro _; simp [evaluateGuessGo]
  | cons c rest ih =>
    intro hp
    rw [List.pairwise_cons] at hp
    obtain ⟨hd, hp'⟩ := hp
    by_cases heq : c.words = g
    · simp [evaluateGuessGo, heq, List.any_cons]
    · by_cases hint : (c.words ∩ g).card = 3
      · have hno : rest.any (fun c' => decide (c'.words = g)) = false := by
          rw [List.any_eq_false]
          intro c' hc'
          simp only [decide_eq_true_eq]
          intro he
          have hdisj : Disjoint c.words c'.words := hd c' hc'
          rw [he] at hdisj
          rw [Finset.disjoint_iff_inter_eq_empty.mp hdisj] at hint
          simp at hint
        simp [evaluateGuessGo, heq, hint, List.any_cons, hno]
      · show (if c.words = g then (⟨g, GuessResult.correct⟩ : Guess)
            else if (c.words ∩ g).card = 3 then ⟨g, GuessResult.three_out_of_four⟩
            else evaluateGuessGo g rest) = _
        rw [if_neg heq, if_neg hint, ih hp']
        simp [List.any_cons, heq, hint]

/-- With pairwise disjoint 4-word categories, at most one category's word
set can equal a given guess set. -/
theorem countP_words_eq_le_one (g : Finset String) :
    ∀ cats : List Category,
      cats.Pairwise (fun a b => Disjoint a.words b.words) →
      (∀ c ∈ cats, c.words.card = 4) →
      cats.countP (fun c => decide (c.words = g)) ≤ 1 := by
  intro cats
  induction cats with
  | nil => intro _ _; simp
  | cons c rest ih =>
    intro hp hc
    rw [List.pairwise_cons] at hp
    obtain ⟨hd, hp'⟩ := hp
    rw [List.countP_cons]
    by_cases heq : c.words = g
    · have hz : rest.countP (fun c' => decide (c'.words = g)) = 0 := by
        rw [List.countP_eq_zero]
        intro c' hc'
        simp only [decide_eq_true_eq]
        intro he
        have hdisj : Disjoint c.words c'.words := hd c' hc'
        rw [heq, he] at hdisj
        have hempty : g = ∅ := by simpa using disjoint_self.mp hdisj
        have h4 : c'.words.card = 4 := hc c' (List.mem_cons_of_mem c hc')
        rw [he, hempty] at h4
        simp at h4
      simp [hz, heq]
    · simp [heq, ih hp' (fun c' h => hc c' (List.mem_cons_of_mem c h))]

/-- With pairwise disjoint categories and a 4-word guess, at most one
category can intersect the guess in exactly 3 words. -/
theorem countP_inter3_le_one (g : Finset String) (hg : g.card = 4) :
    ∀ cats : List Category,
      cats.Pairwise (fun a b => Disjoint a.words b.words) →
      cats.countP (fun c => decide ((c.words ∩ g).card = 3)) ≤ 1 := by
  intro cats
  induction cats with
  | nil => intro _; simp
  | cons c rest ih =>
    intro hp
    rw [List.pairwise_cons] at hp
    obtain ⟨hd, hp'⟩ := hp
    rw [List.countP_cons]
    by_cases hint : (c.words ∩ g).card = 3
    · have hz : rest.countP (fun c' => decide ((c'.words ∩ g).card = 3)) = 0 := by
        rw [List.countP_eq_zero]
        intro c' hc'
        simp only [decide_eq_true_eq]
        intro hint'
        have hdisj : Disjoint (c.words ∩ g) (c'.words ∩ g) :=
          (hd c' hc').mono Finset.inter_subset_left Finset.inter_subset_left
        have hsub : (c.words ∩ g) ∪ (c'.words ∩ g) ⊆ g :=
          Finset.union_subset Finset.inter_subset_right Finset.inter_subset_right
        have hcard := Finset.card_le_card hsub
        rw [Finset.card_union_of_disjoint hdisj, hint, hint', hg] at hcard
        omega
      simp [hz, hint]
    · simp [hint, ih hp']

/-- C1: given pairwise-disjoint 4-word categories and a 4-word guess,
`evaluate_guess` realises exactly the fixed order the spec states —
duplicate → Invalid, category match → Correct, 3-word intersection →
ThreeOfFour, else Incorrect (`specEvaluateGuess`) — and at most one
category can match exactly, and at most one can intersect in exactly 3
words, so the in-order scan never misreports a Correct guess. -/
theorem evaluate_guess_matches_spec_order (cats : List Category)
    (g : Finset String) (hist : List (Finset String))
    (hp : cats.Pairwise (fun a b => Disjoint a.words b.words))
    (hc : ∀ c ∈ cats, c.words.card = 4) (hg : g.card = 4) :
    evaluate_guess cats g hist = specEvaluateGuess cats g hist ∧
    cats.countP (fun c => decide (c.words = g)) ≤ 1 ∧
    cats.countP (fun c => decide ((c.words ∩ g).card = 3)) ≤ 1 := by
  refine ⟨?_, countP_words_eq_le_one g cats hp hc, countP_inter3_le_one g hg cats hp⟩
  unfold evaluate_guess specEvaluateGuess
  by_cases hmem : g ∈ hist
  · simp [hmem]
  · simp [hmem, evaluateGuessGo_eq_staged g cats hp]

/-- Witness for C1 on the sample puzzle with the planets guess. -/
theorem evaluate_guess_matches_spec_order_witness :
    evaluate_guess sampleCats {"EAR", "MAR", "MER", "SAT"} [] =
      specEvaluateGuess sampleCats {"EAR", "MAR", "MER", "SAT"} [] ∧
    sampleCats.countP
      (fun c => decide (c.words = {"EAR", "MAR", "MER", "SAT"})) ≤ 1 ∧
    sampleCats.countP
      (fun c => decide ((c.words ∩ {"EAR", "MAR", "MER", "SAT"}).card = 3)) ≤ 1 :=
  evaluate_guess_matches_spec_order sampleCats _ [] (by decide) (by decide)
    (by decide)

/-- The vocabulary-filter loop never recovers a word outside the canonical
vocabulary. -/
theorem collectGuessSet_subset (v : JsonValue) :
    ∀ (ws : List String) (s : Finset String),
      collectGuessSet ws v = Except.ok s → ∀ w ∈ s, w ∈ ws := by
  intro ws
  induction ws with
  | nil =>
    intro s h w hw
    simp only [collectGuessSet, Except.ok.injEq] at h
    subst h
    simp at hw
  | cons a rest ih =>
    intro s h w hw
    simp only [collectGuessSet] at h
    cases hin : pyIn a v with
    | error e => rw [hin] at h; simp at h
    | ok b =>
      rw [hin] at h
      cases hrec : collectGuessSet rest v with
      | error e => rw [hrec] at h; simp at h
      | ok s' =>
        rw [hrec] at h
        simp only [Except.ok.injEq] at h
        subst h
        cases b with
        | false =>
          simp only [if_neg Bool.false_ne_true] at hw
          exact List.mem_cons_of_mem a (ih s' hrec w hw)
        | true =>
          simp only [if_pos rfl] at hw
          rcases Finset.mem_insert.mp hw with h | h
          · exact h ▸ List.mem_cons_self a rest
          · exact List.mem_cons_of_mem a (ih s' hrec w h)

/-- On a JSON array of tokens the vocabulary-filter loop succeeds and
recovers exactly the canonical words equal to some string element of the
array. -/
theorem collectGuessSet_arr (toks : List JsonValue) :
    ∀ ws : List String,
      collectGuessSet ws (JsonValue.arr toks) =
        Except.ok (arrVocabFilter ws toks) := by
  intro ws
  induction ws with
  | nil => simp [collectGuessSet, arrVocabFilter]
  | cons a rest ih =>
    simp only [collectGuessSet, pyIn]
    rw [ih]
    by_cases hb : (toks.any (fun e =>
        match e with
        | .str s => decide (s = a)
        | _ => false)) = true
    · simp [hb, arrVocabFilter, List.filter_cons]
    · simp [hb, arrVocabFilter, List.filter_cons]

/-- C5 (amended): whenever `parse_guess` returns (rather than raising an
uncaught exception on fenced valid-JSON content that is not a nonempty
object, or on a non-container first value), the returned `ParsedGuess` is
valid iff exactly 4 canonical vocabulary words were recovered, and an
invalid result carries exactly one of the three failure reasons, each tied
to its pipeline stage in priority order: no fenced block, fenced content
not valid JSON, recovered word set size ≠ 4. -/
theorem parse_guess_failure_trichotomy (ws : List String) (reply : String)
    (pg : ParsedGuess) (h : parse_guess ws reply = Except.ok pg) :
    (pg.valid = true ↔ pg.guess_set.card = 4) ∧
    (∀ w ∈ pg.guess_set, w ∈ ws) ∧
    (pg.valid = true → pg.reason = "") ∧
    (pg.valid = false →
      ((pg.reason = msgNoFence ∧
          findFenced (removeScratchpads reply.toList) = none ∧
          pg.guess_set = ∅) ∨
       (pg.reason = msgBadJson ∧
          (∃ content, findFenced (removeScratchpads reply.toList) = some content ∧
            json_loads (pyStrip content) = none) ∧
          pg.guess_set = ∅) ∨
       (pg.reason = msgNeed4 ∧
          (∃ content jv,
            findFenced (removeScratchpads reply.toList) = some content ∧
            json_loads (pyStrip content) = some jv) ∧
          pg.guess_set.card ≠ 4))) ∧
    (msgNoFence ≠ msgBadJson ∧ msgNoFence ≠ msgNeed4 ∧ msgBadJson ≠ msgNeed4) := by
  unfold parse_guess at h
  cases hf : findFenced (removeScratchpads reply.toList) with
  | none =>
    simp only [hf, Except.ok.injEq] at h
    subst h
    exact ⟨by decide, by simp, (by intro hv; simp at hv),
      fun _ => Or.inl ⟨rfl, rfl, rfl⟩, by decide⟩
  | some content =>
    simp only [hf] at h
    cases hj : json_loads (pyStrip content) with
    | none =>
      simp only [hj, Except.ok.injEq] at h
      subst h
      exact ⟨by decide, by simp, (by intro hv; simp at hv),
        fun _ => Or.inr (Or.inl ⟨rfl, ⟨content, rfl, hj⟩, rfl⟩), by decide⟩
    | some jv =>
      simp only [hj] at h
      cases jv with
      | null => simp at h
      | bool b => simp at h
      | num lex => simp at h
      | str s => simp at h
      | arr elems => simp at h
      | obj entries =>
        cases entries with
        | nil => simp at h
        | cons kv rest =>
          obtain ⟨k, v⟩ := kv
          cases hcg : collectGuessSet ws v with
          | error e => simp only [hcg] at h; simp at h
          | ok s =>
            simp only [hcg] at h
            by_cases hcard : s.card ≠ CATEGORY_SIZE
            · rw [if_pos hcard] at h
              simp only [Except.ok.injEq] at h
              subst h
              refine ⟨?_, collectGuessSet_subset v ws s hcg,
                (by intro hv; simp at hv),
                fun _ => Or.inr (Or.inr
                  ⟨rfl, ⟨content, .obj ((k, v) :: rest), rfl, hj⟩, hcard⟩),
                by decide⟩
              simp only [CATEGORY_SIZE] at hcard
              simp [hcard]
            · rw [if_neg hcard] at h
              simp only [Except.ok.injEq] at h
              subst h
              push_neg at hcard
              simp only [CATEGORY_SIZE] at hcard
              exact ⟨by simp [hcard], collectGuessSet_subset v ws s hcg,
                fun _ => rfl, (by intro hv; simp at hv), by decide⟩

/-- Witness for C5 (amended) on a reply with no fenced block. -/
theorem parse_guess_failure_trichotomy_witness :
    ((ParsedGuess.mk false ∅ msgNoFence).valid = true ↔
      (ParsedGuess.mk false ∅ msgNoFence).guess_set.card = 4) :=
  (parse_guess_failure_trichotomy sampleVocab "hi" ⟨false, ∅, msgNoFence⟩ rfl).1

/-- Counterexample to C5 as stated: on the reply whose fenced content is
the valid JSON document of an empty object, `parse_guess` raises an
uncaught `IndexError` (Python's `list(guess_dict.values())[0]`) instead of
returning a `ParsedGuess`. -/
theorem parse_guess_raises_on_empty_object :
    parse_guess sampleVocab "```\x7b\x7d```" = Except.error PyErr.indexError := rfl

/-- C6 (amended): candidate words in the fenced JSON array are matched
case-sensitively — `parse_guess` recovers exactly the canonical vocabulary
words that equal some string element of the token array, and is valid iff
these number exactly 4.  (Case-insensitive matching, as the claim states
it, is refuted by `parse_guess_rejects_lowercase`.) -/
theorem parse_guess_exact_case_recovery (ws : List String) (reply : String)
    (content : List Char) (k : String) (toks : List JsonValue)
    (rest : List (String × JsonValue))
    (hf : findFenced (removeScratchpads reply.toList) = some content)
    (hj : json_loads (pyStrip content) =
      some (JsonValue.obj ((k, JsonValue.arr toks) :: rest)))
    (hcard : (arrVocabFilter ws toks).card = 4) :
    parse_guess ws reply = Except.ok ⟨true, arrVocabFilter ws toks, ""⟩ := by
  unfold parse_guess
  simp only [hf, hj, collectGuessSet_arr]
  simp [hcard, CATEGORY_SIZE]

/-- Witness for C6 (amended): the upper-case planets guess is recovered in
full and accepted. -/
theorem parse_guess_exact_case_recovery_witness :
    parse_guess sampleVocab exactReply =
      Except.ok ⟨true, arrVocabFilter sampleVocab exactToks, ""⟩ :=
  parse_guess_exact_case_recovery sampleVocab exactReply exactReplyContent
    "a" exactToks [] rfl rfl (by decide)

/-- Counterexample to C6 as stated: the same four canonical words written
in lower case — a letter case the claim asserts is accepted — are not
recovered at all, and the guess is rejected. -/
theorem parse_guess_rejects_lowercase :
    parse_guess sampleVocab lowercaseReply = Except.ok ⟨false, ∅, msgNeed4⟩ ∧
    parse_guess sampleVocab lowercaseReply ≠
      Except.ok ⟨true, {"EAR", "MAR", "MER", "SAT"}, ""⟩ :=
  ⟨rfl, by
    intro hc
    have h0 : parse_guess sampleVocab lowercaseReply =
        Except.ok ⟨false, ∅, msgNeed4⟩ := rfl
    have h1 := Except.ok.inj (h0.symm.trans hc)
    exact absurd (congrArg ParsedGuess.valid h1) (by simp)⟩

/-- C7 (amended): a turn whose validly parsed guess shares a word with a
previously Correct guess records an Invalid guess carrying the distinct
reused-word feedback, without invoking the evaluator (the recorded state
is exactly `add_guess` of the Invalid guess, whatever the evaluator would
have said), leaves `remaining_mistakes` and `num_correct_guesses`
unchanged — and the session continues exactly when this was not the third
consecutive invalid attempt (see
`reused_word_third_invalid_ends_session`). -/
theorem do_turn_reused_word_invalid (game : Game) (reply : String)
    (pg : ParsedGuess)
    (hp : parse_guess game.state.words reply = Except.ok pg)
    (hv : pg.valid = true)
    (hr : game.state.any_word_already_in_correct_category pg.guess_set = true) :
    do_turn game reply =
      Except.ok ⟨game.state.add_guess ⟨pg.guess_set, .invalid⟩, .reusedWord⟩ ∧
    (game.state.add_guess ⟨pg.guess_set, .invalid⟩).remaining_mistakes =
      game.state.remaining_mistakes ∧
    (game.state.add_guess ⟨pg.guess_set, .invalid⟩).num_correct_guesses =
      game.state.num_correct_guesses ∧
    (game.state.add_guess ⟨pg.guess_set, .invalid⟩).consecutive_invalid_attempts =
      game.state.consecutive_invalid_attempts + 1 ∧
    (loopGuard game.state = true →
      (loopGuard (game.state.add_guess ⟨pg.guess_set, .invalid⟩) = true ↔
        game.state.consecutive_invalid_attempts + 1 <
          MAX_CONSECUTIVE_INVALID_ATTEMPTS)) := by
  refine ⟨?_, by simp [GameState.add_guess], by simp [GameState.add_guess],
    by simp [GameState.add_guess], ?_⟩
  · unfold do_turn
    simp only [hp]
    rw [hv]
    simp [hr]
  · intro hg
    simp only [loopGuard, Bool.and_eq_true, decide_eq_true_eq] at hg
    obtain ⟨⟨h1, h2⟩, _⟩ := hg
    simp [loopGuard, GameState.add_guess, h1, h2]

/-- Witness for C7 (amended): the reused-word turn on the sample
mid-session state, where the session does continue (first consecutive
invalid). -/
theorem do_turn_reused_word_invalid_witness :
    do_turn witGameReuse reusedReply =
      Except.ok ⟨witGameReuse.state.add_guess
        ⟨({"EAR", "FIDDLE", "GUESS", "NATURE"} : Finset String), .invalid⟩,
        .reusedWord⟩ :=
  (do_turn_reused_word_invalid witGameReuse reusedReply
    ⟨true, {"EAR", "FIDDLE", "GUESS", "NATURE"}, ""⟩ rfl rfl rfl).1

/-- Counterexample to C7's "the session continues": at a reachable state
with one category solved and two consecutive invalid attempts, a
reused-word guess is recorded Invalid with the mistake budget unchanged —
but it is the third consecutive invalid attempt, the loop guard turns
false, and the session ends. -/
theorem reused_word_third_invalid_ends_session :
    loopGuard cexGameCia2.state = true ∧
    parse_guess cexGameCia2.state.words reusedReply =
      Except.ok ⟨true, {"EAR", "FIDDLE", "GUESS", "NATURE"}, ""⟩ ∧
    cexGameCia2.state.any_word_already_in_correct_category
      {"EAR", "FIDDLE", "GUESS", "NATURE"} = true ∧
    do_turn cexGameCia2 reusedReply = Except.ok cexGameAfterReuse ∧
    cexGameAfterReuse.state.remaining_mistakes =
      cexGameCia2.state.remaining_mistakes ∧
    loopGuard cexGameAfterReuse.state = false :=
  ⟨rfl, rfl, rfl, rfl, rfl, rfl⟩

/-- Replacing the element at a known position and re-consing it is a
permutation. -/
theorem cons_set_perm {α : Type} : ∀ (t : List α) (k : Nat) (b x : α),
    t[k]? = some b → (b :: t.set k x).Perm (x :: t) := by
  intro t
  induction t with
  | nil => intro k b x h; simp at h
  | cons c t' ih =>
    intro k b x h
    cases k with
    | zero =>
      simp at h
      subst h
      simpa [List.set] using List.Perm.swap x c t'
    | succ m =>
      simp at h
      simp only [List.set]
      exact ((List.Perm.swap c b _).trans ((ih m b x h).cons c)).trans
        (List.Perm.swap x c t')

/-- A two-sided in-bounds element swap via `set` is a permutation. -/
theorem set_set_perm {α : Type} : ∀ (xs : List α) (i j : Nat) (a b : α),
    xs[i]? = some a → xs[j]? = some b →
    ((xs.set i b).set j a).Perm xs := by
  intro xs
  induction xs with
  | nil => intro i j a b hi _; simp at hi
  | cons c t ih =>
    intro i j a b hi hj
    cases i with
    | zero =>
      simp at hi
      subst hi
      cases j with
      | zero =>
        simp at hj
        subst hj
        simp [List.set]
      | succ m =>
        simp at hj
        simpa [List.set] using cons_set_perm t m b c hj
    | succ n =>
      simp at hi
      cases j with
      | zero =>
        simp at hj
        subst hj
        simpa [List.set] using cons_set_perm t n a c hi
      | succ m =>
        simp at hj
        simpa [List.set] using (ih n m a b hi hj).cons c

/-- Python's tuple-swap of two list positions is a permutation. -/
theorem swapL_perm {α : Type} (xs : List α) (i j : Nat) :
    (swapL xs i j).Perm xs := by
  unfold swapL
  split
  · next a b hi hj => exact set_set_perm xs i j a b hi hj
  · exact List.Perm.refl xs

/-- The Fisher–Yates loop keeps the underlying draw stream, advances the
position by exactly the number of iterations, and permutes the list. -/
theorem pyShuffleGo_spec : ∀ (i : Nat) (g : GlobalRng) (xs : List String),
    (pyShuffleGo g xs i).2.stream = g.stream ∧
    (pyShuffleGo g xs i).2.pos = g.pos + i ∧
    (pyShuffleGo g xs i).1.Perm xs := by
  intro i
  induction i with
  | zero => intro g xs; exact ⟨rfl, rfl, List.Perm.refl xs⟩
  | succ n ih =>
    intro g xs
    obtain ⟨h1, h2, h3⟩ :=
      ih ⟨g.stream, g.pos + 1⟩ (swapL xs (n + 1) (g.stream g.pos % (n + 2)))
    have h2' : (pyShuffleGo ⟨g.stream, g.pos + 1⟩
        (swapL xs (n + 1) (g.stream g.pos % (n + 2))) n).2.pos =
        g.pos + 1 + n := h2
    refine ⟨?_, ?_, ?_⟩ <;> simp only [pyShuffleGo, randbelow]
    · exact h1
    · rw [h2']; omega
    · exact h3.trans (swapL_perm xs (n + 1) _)

/-- C9 (amended): `GameState` construction shuffles through the
process-global generator — it preserves the global draw stream, advances
the global position by one draw per Fisher–Yates step (so any later
construction reads a different part of the stream), and the session's word
order is a permutation of the flattened category words.  The claimed
independence from earlier constructions is refuted by
`shuffle_depends_on_prior_constructions`. -/
theorem mkGameState_consumes_global_rng (rng : GlobalRng)
    (cats : List Category) :
    (mkGameState rng cats).2.stream = rng.stream ∧
    (mkGameState rng cats).2.pos = rng.pos + ((flattenWords cats).length - 1) ∧
    (mkGameState rng cats).1.words.Perm (flattenWords cats) ∧
    (mkGameState rng cats).1.categories = cats ∧
    (mkGameState rng cats).1.remaining_mistakes = ALLOWED_MISTAKES ∧
    (mkGameState rng cats).1.guesses = [] := by
  obtain ⟨h1, h2, h3⟩ :=
    pyShuffleGo_spec ((flattenWords cats).length - 1) rng (flattenWords cats)
  exact ⟨h1, h2, h3, rfl, rfl, rfl⟩

/-- Counterexample to C9 as stated: with the global generator at its
post-import state, constructing a second `GameState` from the very same
categories yields a different word order than the first — the order is not
independent of how many `GameState`s were created earlier in the
process. -/
theorem shuffle_depends_on_prior_constructions :
    (mkGameState (mkGameState sampleRng sampleCats).2 sampleCats).1.words ≠
      (mkGameState sampleRng sampleCats).1.words ∧
    (mkGameState sampleRng sampleCats).2.pos ≠ sampleRng.pos :=
  ⟨by decide, by decide⟩

/-- The loop guard of `Game.play`, componentwise. -/
theorem loopGuard_eq_true_iff (s : GameState) :
    loopGuard s = true ↔
      0 < s.remaining_mistakes ∧ s.num_correct_guesses ≠ NUM_CATEGORIES ∧
      s.consecutive_invalid_attempts < MAX_CONSECUTIVE_INVALID_ATTEMPTS := by
  simp [loopGuard, Bool.and_eq_true, decide_eq_true_eq, and_assoc]

/-- One recorded guess keeps the counters in range, lands either in a state
where the loop continues or where exactly one terminal condition holds,
and strictly decreases the termination measure. -/
theorem add_guess_step (s : GameState) (g : Guess)
    (hI : rangeInv s) (hG : loopGuard s = true) :
    rangeInv (s.add_guess g) ∧
    (loopGuard (s.add_guess g) = true ∨ exactlyOneTerminal (s.add_guess g)) ∧
    gameMeasure (s.add_guess g) < gameMeasure s := by
  obtain ⟨hrm, hncg, hcia⟩ := hI
  rw [loopGuard_eq_true_iff] at hG
  obtain ⟨hg1, hg2, hg3⟩ := hG
  simp only [NUM_CATEGORIES, MAX_CONSECUTIVE_INVALID_ATTEMPTS] at hncg hcia hg2 hg3
  obtain ⟨w, result⟩ := g
  cases result <;>
    simp only [GameState.add_guess, rangeInv, gameMeasure, exactlyOneTerminal,
      terminalWon, terminalMistakes, terminalInvalid, loopGuard_eq_true_iff,
      NUM_CATEGORIES, MAX_CONSECUTIVE_INVALID_ATTEMPTS] <;>
    omega

/-- Every successful turn changes the state by exactly one recorded
guess. -/
theorem do_turn_ok_shape (game : Game) (r : String) (game' : Game)
    (h : do_turn game r = Except.ok game') :
    ∃ g : Guess, game'.state = game.state.add_guess g := by
  unfold do_turn at h
  cases hp : parse_guess game.state.words r with
  | error e => simp only [hp] at h; simp at h
  | ok pg =>
    simp only [hp] at h
    by_cases hv : pg.valid = false
    · rw [if_pos hv] at h
      simp only [Except.ok.injEq] at h
      subst h
      exact ⟨⟨∅, .invalid⟩, rfl⟩
    · rw [if_neg hv] at h
      by_cases hr : game.state.any_word_already_in_correct_category pg.guess_set = true
      · rw [if_pos hr] at h
        simp only [Except.ok.injEq] at h
        subst h
        exact ⟨⟨pg.guess_set, .invalid⟩, rfl⟩
      · rw [if_neg hr] at h
        simp only [Except.ok.injEq] at h
        subst h
        exact ⟨evaluate_guess game.state.categories pg.guess_set
          game.state.guessed_sets, rfl⟩

/-- With fuel at least the termination measure, the turn loop never runs
out of fuel; a normal exit lands in a state with exactly one terminal
condition, and a crash exit (an uncaught parse exception) leaves a state
where the loop guard was still true and no terminal condition holds. -/
theorem playFuel_spec (stream : Nat → String) :
    ∀ (fuel turn : Nat) (game : Game),
      rangeInv game.state →
      (loopGuard game.state = true ∨ exactlyOneTerminal game.state) →
      gameMeasure game.state ≤ fuel →
      (∀ g, playFuel stream turn fuel game ≠ RunResult.outOfFuel g) ∧
      (∀ g', playFuel stream turn fuel game = RunResult.finished g' →
        loopGuard g'.state = false ∧ exactlyOneTerminal g'.state) ∧
      (∀ e g', playFuel stream turn fuel game = RunResult.crashed e g' →
        loopGuard g'.state = true ∧ ¬ exactlyOneTerminal g'.state) := by
  intro fuel
  induction fuel with
  | zero =>
    intro turn game hI hD hM
    have hguard : loopGuard game.state = false := by
      cases hG : loopGuard game.state
      · rfl
      · exfalso
        rw [loopGuard_eq_true_iff] at hG
        simp only [gameMeasure] at hM
        have h1 := hG.1
        omega
    simp only [playFuel, hguard, Bool.false_eq_true, if_false]
    refine ⟨by simp, ?_, by simp⟩
    intro g' hg'
    cases hg'
    rcases hD with hD | hD
    · rw [hguard] at hD; cases hD
    · exact ⟨hguard, hD⟩
  | succ n ih =>
    intro turn game hI hD hM
    cases hG : loopGuard game.state with
    | false =>
      simp only [playFuel, hG, Bool.false_eq_true, if_false]
      refine ⟨by simp, ?_, by simp⟩
      intro g' hg'
      cases hg'
      rcases hD with hD | hD
      · rw [hG] at hD; cases hD
      · exact ⟨hG, hD⟩
    | true =>
      cases hdo : do_turn game (stream turn) with
      | error e =>
        simp only [playFuel, hG, if_true, hdo]
        refine ⟨by simp, by simp, ?_⟩
        intro e' g' hg'
        cases hg'
        refine ⟨hG, ?_⟩
        intro hex
        rcases (loopGuard_eq_true_iff _).mp hG with ⟨h1, h2, h3⟩
        unfold exactlyOneTerminal terminalWon terminalMistakes terminalInvalid at hex
        rcases hex with ⟨hw, _, _⟩ | ⟨_, hm, _⟩ | ⟨_, _, hinv⟩
        · exact h2 hw
        · exact absurd hm (by omega)
        · exact absurd hinv (by omega)
      | ok game'' =>
        obtain ⟨g, hst⟩ := do_turn_ok_shape game (stream turn) game'' hdo
        obtain ⟨hI', hD', hM'⟩ := add_guess_step game.state g hI hG
        rw [← hst] at hI' hD' hM'
        have hM'' : gameMeasure game''.state ≤ n := by omega
        have hrec := ih (turn + 1) game'' hI' hD' hM''
        simpa only [playFuel, hG, if_true, hdo] using hrec

/-- C4 (amended): for every reply stream, a session started from a fresh
`GameState` exits its turn loop within 83 turns (never out of fuel); when
the loop exits normally exactly one of the three terminal conditions —
`num_correct_guesses = 4` (Won), `remaining_mistakes = 0` (Lost),
`consecutive_invalid_attempts ≥ 3` (Lost) — holds, never two; an uncaught
parse exception can also abort the loop, and then the guard was still true
and no terminal condition holds (see
`play_crash_exits_without_terminal`). -/
theorem play_terminates_with_unique_terminal (rng : GlobalRng)
    (cats : List Category) (stream : Nat → String) :
    (∀ g, playFuel stream 0 83 (mkGame rng cats).1 ≠ RunResult.outOfFuel g) ∧
    (∀ g', playFuel stream 0 83 (mkGame rng cats).1 = RunResult.finished g' →
      loopGuard g'.state = false ∧ exactlyOneTerminal g'.state) ∧
    (∀ e g', playFuel stream 0 83 (mkGame rng cats).1 = RunResult.crashed e g' →
      loopGuard g'.state = true ∧ ¬ exactlyOneTerminal g'.state) := by
  apply playFuel_spec
  · refine ⟨?_, ?_, ?_⟩ <;>
      simp [mkGame, mkGameState, rangeInv, ALLOWED_MISTAKES, NUM_CATEGORIES,
        MAX_CONSECUTIVE_INVALID_ATTEMPTS]
  · left
    rw [loopGuard_eq_true_iff]
    refine ⟨?_, ?_, ?_⟩ <;>
      simp [mkGame, mkGameState, ALLOWED_MISTAKES, NUM_CATEGORIES,
        MAX_CONSECUTIVE_INVALID_ATTEMPTS]
  · simp only [mkGame, mkGameState, gameMeasure, NUM_CATEGORIES,
      MAX_CONSECUTIVE_INVALID_ATTEMPTS, ALLOWED_MISTAKES]
    omega

/-- Witness for C4 (amended): the all-unparsable-replies session finishes,
with exactly one terminal condition (three consecutive invalid
attempts). -/
theorem play_terminates_with_unique_terminal_witness :
    loopGuard sampleFinalGame.state = false ∧
    exactlyOneTerminal sampleFinalGame.state :=
  (play_terminates_with_unique_terminal sampleRng sampleCats
    unparsableStream).2.1 sampleFinalGame rfl

/-- Counterexample to C4 as stated: with a reply whose fenced content is
the valid JSON document `[]`, the very first turn raises an uncaught
`AttributeError`; the turn loop exits after finitely many turns but none
of the three terminal conditions holds at that moment. -/
theorem play_crash_exits_without_terminal :
    playFuel crashingStream 0 83 (mkGame sampleRng sampleCats).1 =
      RunResult.crashed PyErr.attributeError (mkGame sampleRng sampleCats).1 ∧
    ¬ exactlyOneTerminal (mkGame sampleRng sampleCats).1.state :=
  ⟨rfl, by decide⟩

/-- `add_guess` only appends to the log and updates counters. -/
theorem add_guess_fields (s : GameState) (g : Guess) :
    (s.add_guess g).words = s.words ∧
    (s.add_guess g).categories = s.categories ∧
    (s.add_guess g).guesses = s.guesses ++ [g] := by
  obtain ⟨w, r⟩ := g
  cases r <;> simp [GameState.add_guess]

/-- The category scan returns the guessed set itself as the recorded word
set. -/
theorem evaluateGuessGo_words (gs : Finset String) :
    ∀ cats : List Category, (evaluateGuessGo gs cats).words = gs := by
  intro cats
  induction cats with
  | nil => rfl
  | cons c rest ih =>
    simp only [evaluateGuessGo]
    split
    · rfl
    · split
      · rfl
      · exact ih

/-- `evaluate_guess` records exactly the guessed word set. -/
theorem evaluate_guess_words (cats : List Category) (gs : Finset String)
    (hist : List (Finset String)) :
    (evaluate_guess cats gs hist).words = gs := by
  unfold evaluate_guess
  split
  · rfl
  · exact evaluateGuessGo_words gs cats

/-- A valid parse recovers exactly 4 words, all from the canonical
vocabulary. -/
theorem parse_guess_ok_valid (ws : List String) (r : String)
    (pg : ParsedGuess) (h : parse_guess ws r = Except.ok pg)
    (hv : pg.valid = true) :
    pg.guess_set.card = 4 ∧ ∀ w ∈ pg.guess_set, w ∈ ws := by
  unfold parse_guess at h
  cases hf : findFenced (removeScratchpads r.toList) with
  | none =>
    simp only [hf, Except.ok.injEq] at h
    subst h
    simp at hv
  | some content =>
    simp only [hf] at h
    cases hj : json_loads (pyStrip content) with
    | none =>
      simp only [hj, Except.ok.injEq] at h
      subst h
      simp at hv
    | some jv =>
      simp only [hj] at h
      cases jv with
      | null => simp at h
      | bool b => simp at h
      | num lex => simp at h
      | str s => simp at h
      | arr elems => simp at h
      | obj entries =>
        cases entries with
        | nil => simp at h
        | cons kv rest =>
          obtain ⟨k, v⟩ := kv
          cases hcg : collectGuessSet ws v with
          | error e => simp only [hcg] at h; simp at h
          | ok s =>
            simp only [hcg] at h
            by_cases hcard : s.card ≠ CATEGORY_SIZE
            · rw [if_pos hcard] at h
              simp only [Except.ok.injEq] at h
              subst h
              simp at hv
            · rw [if_neg hcard] at h
              simp only [Except.ok.injEq] at h
              subst h
              push_neg at hcard
              simp only [CATEGORY_SIZE] at hcard
              exact ⟨hcard, collectGuessSet_subset v ws s hcg⟩

/-- Membership in the canonical sorted enumeration of a word set. -/
theorem mem_finsetToSortedList (s : Finset String) (w : String) :
    w ∈ finsetToSortedList s ↔ w ∈ s := by
  obtain ⟨m, hm⟩ := s
  revert hm
  refine Quotient.inductionOn m (fun l => ?_)
  intro hm
  have hred : finsetToSortedList ⟨⟦l⟧, hm⟩ =
      List.insertionSort (fun a b => pyStrLe a b = true) l := rfl
  rw [hred, (List.perm_insertionSort (fun a b => pyStrLe a b = true) l).mem_iff]
  simp [Finset.mem_mk]

/-- Length of the canonical sorted enumeration of a word set. -/
theorem length_finsetToSortedList (s : Finset String) :
    (finsetToSortedList s).length = s.card := by
  obtain ⟨m, hm⟩ := s
  revert hm
  refine Quotient.inductionOn m (fun l => ?_)
  intro hm
  have hred : finsetToSortedList ⟨⟦l⟧, hm⟩ =
      List.insertionSort (fun a b => pyStrLe a b = true) l := rfl
  rw [hred, (List.perm_insertionSort (fun a b => pyStrLe a b = true) l).length_eq]
  rfl

/-- A word occurs in the flattened category list iff some category holds
it. -/
theorem flattenWords_mem (cats : List Category) (w : String) :
    w ∈ flattenWords cats ↔ ∃ c ∈ cats, w ∈ c.words := by
  unfold flattenWords
  simp only [List.mem_flatten, List.mem_map]
  constructor
  · rintro ⟨l, ⟨c, hc, rfl⟩, hw⟩
    exact ⟨c, hc, (mem_finsetToSortedList c.words w).mp hw⟩
  · rintro ⟨c, hc, hw⟩
    exact ⟨categoryWordList c, ⟨c, hc, rfl⟩,
      (mem_finsetToSortedList c.words w).mpr hw⟩

/-- Python-dict insertion preserves and adds keys: any property holding of
the inserted key or of some existing key holds of some key of the
result. -/
theorem pyDictInsert_exists_key {κ ν : Type} [DecidableEq κ] (Q : κ → Prop) :
    ∀ (l : List (κ × ν)) (k : κ) (v : ν),
      (Q k ∨ ∃ p ∈ l, Q p.1) → ∃ p ∈ pyDictInsert l k v, Q p.1 := by
  intro l
  induction l with
  | nil =>
    intro k v h
    rcases h with h | ⟨p, hp, _⟩
    · exact ⟨(k, v), by simp [pyDictInsert], h⟩
    · simp at hp
  | cons kv rest ih =>
    intro k v h
    obtain ⟨k', v'⟩ := kv
    by_cases hk : k' = k
    · rcases h with h | ⟨p, hp, hQ⟩
      · exact ⟨(k', v), by simp [pyDictInsert, hk], hk ▸ h⟩
      · rcases List.mem_cons.mp hp with rfl | hp'
        · exact ⟨(k', v), by simp [pyDictInsert, hk], hQ⟩
        · exact ⟨p, by simp [pyDictInsert, hk, hp'], hQ⟩
    · rcases h with h | ⟨p, hp, hQ⟩
      · obtain ⟨q, hq, hQ'⟩ := ih k v (Or.inl h)
        exact ⟨q, by simp [pyDictInsert, hk, hq], hQ'⟩
      · rcases List.mem_cons.mp hp with rfl | hp'
        · exact ⟨(k', v'), by simp [pyDictInsert, hk], hQ⟩
        · obtain ⟨q, hq, hQ'⟩ := ih k v (Or.inr ⟨p, hp', hQ⟩)
          exact ⟨q, by simp [pyDictInsert, hk, hq], hQ'⟩

/-- `find?` succeeds when some element satisfies the predicate. -/
theorem find?_isSome_of_exists {α : Type} (p : α → Bool) :
    ∀ l : List α, (∃ x ∈ l, p x = true) → (l.find? p).isSome = true := by
  intro l
  induction l with
  | nil => rintro ⟨x, hx, _⟩; simp at hx
  | cons a t ih =>
    rintro ⟨x, hx, hp⟩
    by_cases hpa : p a = true
    · simp [List.find?_cons, hpa]
    · have hpa' : p a = false := by simpa using hpa
      rcases List.mem_cons.mp hx with rfl | hx'
      · exact absurd hp hpa
      · simpa [List.find?_cons, hpa'] using ih ⟨x, hx', hp⟩

/-- `filterMap` over a list of hits keeps the length. -/
theorem filterMap_length_all {α β : Type} (f : α → Option β) :
    ∀ l : List α, (∀ x ∈ l, (f x).isSome) → (l.filterMap f).length = l.length := by
  intro l
  induction l with
  | nil => intro _; rfl
  | cons a t ih =>
    intro h
    obtain ⟨b, hb⟩ := Option.isSome_iff_exists.mp (h a (by simp))
    simp [List.filterMap_cons, hb, ih (fun x hx => h x (by simp [hx]))]

/-- Each glyph line of the formatter renders one glyph per guessed word
when the guess has 4 words, all from the four categories. -/
theorem guessEmojis_length (c0 c1 c2 c3 : Category)
    (dict : List (Finset String × String))
    (hd : emojiDict [c0, c1, c2, c3] = Except.ok dict) (g : Guess)
    (hcard : g.words.card = 4)
    (hsub : ∀ w ∈ g.words,
      w ∈ c0.words ∨ w ∈ c1.words ∨ w ∈ c2.words ∨ w ∈ c3.words) :
    (guessEmojis dict g).length = 4 := by
  simp only [emojiDict, Except.ok.injEq] at hd
  subst hd
  unfold guessEmojis
  rw [filterMap_length_all]
  · rw [length_finsetToSortedList, hcard]
  · intro w hw
    have hw' : w ∈ g.words := (mem_finsetToSortedList g.words w).mp hw
    have hQ := hsub w hw'
    unfold lookupEmoji
    rw [Option.isSome_map']
    rw [find?_isSome_of_exists]
    apply pyDictInsert_exists_key (fun K => decide (w ∈ K) = true)
    rcases hQ with h | h | h | h
    · right
      apply pyDictInsert_exists_key (fun K => decide (w ∈ K) = true)
      right
      apply pyDictInsert_exists_key (fun K => decide (w ∈ K) = true)
      right
      apply pyDictInsert_exists_key (fun K => decide (w ∈ K) = true)
      left
      simpa using h
    · right
      apply pyDictInsert_exists_key (fun K => decide (w ∈ K) = true)
      right
      apply pyDictInsert_exists_key (fun K => decide (w ∈ K) = true)
      left
      simpa using h
    · right
      apply pyDictInsert_exists_key (fun K => decide (w ∈ K) = true)
      left
      simpa using h
    · left
      simpa using h

/-- One turn preserves the guess-log invariant: the vocabulary is
unchanged, and every newly recorded non-Invalid guess has exactly 4 words,
all from the vocabulary. -/
theorem do_turn_P_step (U : String → Prop) (game game' : Game) (r : String)
    (h : do_turn game r = Except.ok game')
    (hw : ∀ w ∈ game.state.words, U w)
    (hg : ∀ g ∈ game.state.guesses, g.result ≠ GuessResult.invalid →
      g.words.card = 4 ∧ ∀ w ∈ g.words, U w) :
    (∀ w ∈ game'.state.words, U w) ∧
    (∀ g ∈ game'.state.guesses, g.result ≠ GuessResult.invalid →
      g.words.card = 4 ∧ ∀ w ∈ g.words, U w) := by
  unfold do_turn at h
  cases hp : parse_guess game.state.words r with
  | error e => simp only [hp] at h; simp at h
  | ok pg =>
    simp only [hp] at h
    by_cases hv : pg.valid = false
    · rw [if_pos hv] at h
      simp only [Except.ok.injEq] at h
      subst h
      constructor
      · intro w hw'
        simp only [GameState.add_guess] at hw'
        exact hw w hw'
      · intro g hgm hres
        simp only [GameState.add_guess, List.mem_append,
          List.mem_singleton] at hgm
        rcases hgm with hgm | rfl
        · exact hg g hgm hres
        · exact absurd rfl hres
    · rw [if_neg hv] at h
      have hvt : pg.valid = true := by
        cases hb : pg.valid
        · exact absurd hb hv
        · rfl
      obtain ⟨hc4, hsubv⟩ := parse_guess_ok_valid _ _ _ hp hvt
      by_cases hr : game.state.any_word_already_in_correct_category pg.guess_set = true
      · rw [if_pos hr] at h
        simp only [Except.ok.injEq] at h
        subst h
        constructor
        · intro w hw'
          simp only [GameState.add_guess] at hw'
          exact hw w hw'
        · intro g hgm hres
          simp only [GameState.add_guess, List.mem_append,
            List.mem_singleton] at hgm
          rcases hgm with hgm | rfl
          · exact hg g hgm hres
          · exact absurd rfl hres
      · rw [if_neg hr] at h
        simp only [Except.ok.injEq] at h
        subst h
        have hwords := evaluate_guess_words game.state.categories pg.guess_set
          game.state.guessed_sets
        constructor
        · intro w hw'
          simp only [GameState.add_guess] at hw'
          revert hw'
          cases hres : (evaluate_guess game.state.categories pg.guess_set
              game.state.guessed_sets).result <;>
            (intro hw'; exact hw w hw')
        · intro g hgm hres
          have hgm' : g ∈ game.state.guesses ++
              [evaluate_guess game.state.categories pg.guess_set
                game.state.guessed_sets] := by
            have hfields := add_guess_fields game.state
              (evaluate_guess game.state.categories pg.guess_set
                game.state.guessed_sets)
            rw [← hfields.2.2]
            exact hgm
          rcases List.mem_append.mp hgm' with hgm'' | hgm''
          · exact hg g hgm'' hres
          · rw [List.mem_singleton] at hgm''
            subst hgm''
            rw [hwords]
            exact ⟨hc4, fun w hw' => hw w (hsubv w hw')⟩

/-- A property preserved by every successful turn holds of the game a run
of the loop ends with, whichever way it ends. -/
theorem playFuel_preserves (stream : Nat → String) (P : Game → Prop)
    (hstep : ∀ game r game',
      do_turn game r = Except.ok game' → P game → P game') :
    ∀ (fuel turn : Nat) (game : Game), P game →
      P (playFuel stream turn fuel game).game := by
  intro fuel
  induction fuel with
  | zero =>
    intro turn game hP
    simp only [playFuel]
    split <;> exact hP
  | succ n ih =>
    intro turn game hP
    cases hG : loopGuard game.state with
    | false =>
      simp only [playFuel, hG, Bool.false_eq_true, if_false]
      exact hP
    | true =>
      simp only [playFuel, hG, if_true]
      cases hdo : do_turn game (stream turn) with
      | ok game'' =>
        exact ih (turn + 1) game'' (hstep game (stream turn) game'' hdo hP)
      | error e => exact hP

/-- C10: in any run over a 4-category puzzle, every recorded guess with a
result other than Invalid has exactly 4 words drawn from the puzzle's
categories; a turn whose reply fails to parse records exactly the
empty-set Invalid guess; an empty history entry can never make a 4-word
guess count as a duplicate; and the formatter renders exactly 4 glyphs for
every recorded non-Invalid guess. -/
theorem guess_log_invariant (rng : GlobalRng) (stream : Nat → String)
    (fuel : Nat) (c0 c1 c2 c3 : Category) :
    (∀ g ∈ ((playFuel stream 0 fuel
        (mkGame rng [c0, c1, c2, c3]).1).game).state.guesses,
      g.result ≠ GuessResult.invalid →
      g.words.card = 4 ∧
      ∀ w ∈ g.words,
        w ∈ c0.words ∨ w ∈ c1.words ∨ w ∈ c2.words ∨ w ∈ c3.words) ∧
    (∀ (game₁ : Game) (r : String) (pg : ParsedGuess),
      parse_guess game₁.state.words r = Except.ok pg → pg.valid = false →
      do_turn game₁ r =
        Except.ok ⟨game₁.state.add_guess ⟨∅, .invalid⟩,
          .parseInvalid pg.reason⟩) ∧
    (∀ (gs : Finset String) (hist : List (Finset String)), gs.card = 4 →
      (gs ∈ hist ↔ gs ∈ hist.filter (fun h => decide (h ≠ ∅)))) ∧
    (∀ dict, emojiDict [c0, c1, c2, c3] = Except.ok dict →
      ∀ g ∈ ((playFuel stream 0 fuel
          (mkGame rng [c0, c1, c2, c3]).1).game).state.guesses,
        g.result ≠ GuessResult.invalid → (guessEmojis dict g).length = 4) := by
  have hinv := playFuel_preserves stream
    (fun gm =>
      (∀ w ∈ gm.state.words,
        w ∈ c0.words ∨ w ∈ c1.words ∨ w ∈ c2.words ∨ w ∈ c3.words) ∧
      (∀ g ∈ gm.state.guesses, g.result ≠ GuessResult.invalid →
        g.words.card = 4 ∧ ∀ w ∈ g.words,
          w ∈ c0.words ∨ w ∈ c1.words ∨ w ∈ c2.words ∨ w ∈ c3.words))
    (fun game r game' hdo hP =>
      do_turn_P_step
        (fun w => w ∈ c0.words ∨ w ∈ c1.words ∨ w ∈ c2.words ∨ w ∈ c3.words)
        game game' r hdo hP.1 hP.2)
    fuel 0 (mkGame rng [c0, c1, c2, c3]).1
    ⟨by
      intro w hw
      have hperm := (pyShuffleGo_spec
        ((flattenWords [c0, c1, c2, c3]).length - 1) rng
        (flattenWords [c0, c1, c2, c3])).2.2
      have hw' : w ∈ flattenWords [c0, c1, c2, c3] := hperm.mem_iff.mp hw
      rcases (flattenWords_mem _ w).mp hw' with ⟨c, hc, hcw⟩
      simp only [List.mem_cons, List.not_mem_nil, or_false] at hc
      rcases hc with rfl | rfl | rfl | rfl
      · exact Or.inl hcw
      · exact Or.inr (Or.inl hcw)
      · exact Or.inr (Or.inr (Or.inl hcw))
      · exact Or.inr (Or.inr (Or.inr hcw)),
     by
      intro g hgm _
      have hnil : ((mkGame rng [c0, c1, c2, c3]).1).state.guesses = [] := rfl
      rw [hnil] at hgm
      simp at hgm⟩
  refine ⟨hinv.2, ?_, ?_, ?_⟩
  · intro game₁ r pg hp hval
    unfold do_turn
    simp only [hp]
    rw [if_pos hval]
  · intro gs hist hcard
    rw [List.mem_filter]
    simp only [decide_eq_true_eq]
    constructor
    · intro hmem
      refine ⟨hmem, ?_⟩
      intro h0
      rw [h0] at hcard
      simp at hcard
    · intro hpair
      exact hpair.1
  · intro dict hd g hgm hres
    obtain ⟨hc4, hsub⟩ := hinv.2 g hgm hres
    exact guessEmojis_length c0 c1 c2 c3 dict hd g hc4 hsub

/-- Witness for C10: a concrete 4-word set is a duplicate in a history
with an empty parse-failure entry exactly when it is one with that entry
filtered away. -/
theorem guess_log_invariant_witness :
    (({"EAR", "MAR", "MER", "SAT"} : Finset String) ∈ sampleHist ↔
      ({"EAR", "MAR", "MER", "SAT"} : Finset String) ∈
        sampleHist.filter (fun h => decide (h ≠ ∅))) :=
  (guess_log_invariant sampleRng unparsableStream 83 catPlanets catSecond
    catStub catDream).2.2.1 {"EAR", "MAR", "MER", "SAT"} sampleHist (by decide)

end Connections
